import Mathlib

/-!
# RAK12035 soil-moisture sensor: driver and calibration glue

A shallow embedding of `RAK12035_SoilMoisture.cpp` (the sensor class) and of
`examples/RAK12035_RAK4631_LPWAN/soil.cpp` (sampling, calibration, calibration
store), followed by theorems about the embedded functions.

Conventions.
* `uintN_t` values are `Nat`, reduced `% 2^N` where the C++ narrows; `int` is `Int`.
* An output pointer (`uint8_t *moisture`) becomes an extra argument holding the
  old content and an extra result holding the new content.
* The hardware is explicit state (`Hw`): a millisecond clock, the outcomes of
  the bus transactions still to come, and logs of what was sent and of pin
  writes.
* `float`/`double` arithmetic is IEEE-754 binary32/binary64 with
  round-to-nearest-even, computed exactly over `ℚ`.
* The conversion of a `float` to `uint8_t` is fixed where C++ or the word size
  fixes it and is a parameter (`undef`) elsewhere; theorems that quantify over
  `undef` hold on every target.
-/

set_option linter.dupNamespace false
set_option maxRecDepth 1000000

namespace SoilSensor

/-! ## IEEE-754 arithmetic -/

/-- A floating-point datum.  The sign of zero is not tracked: the only division
in the program divides by a converted integer, whose zero is `+0`. -/
inductive FP where
  | fin (v : ℚ)
  | pinf
  | ninf
  | nan
  deriving DecidableEq, Repr

/-- A binary interchange format: precision in bits and largest exponent. -/
structure Fmt where
  prec : ℕ
  emax : ℤ
  deriving DecidableEq, Repr

/-- The C++ `float`. -/
def binary32 : Fmt := ⟨24, 127⟩

/-- The C++ `double`. -/
def binary64 : Fmt := ⟨53, 1023⟩

/-- Smallest exponent of a normal number. -/
def Fmt.emin (f : Fmt) : ℤ := 1 - f.emax

/-- Halving loop behind `nlog2`; `fuel` bounds the number of halvings. -/
def log2Fuel : ℕ → ℕ → ℕ
  | 0, _ => 0
  | fuel + 1, n => if 2 ≤ n then log2Fuel fuel (n / 2) + 1 else 0

/-- Floor of the base-2 logarithm of a natural number (0 at 0). -/
def nlog2 (n : ℕ) : ℕ := log2Fuel n n

/-- Floor of the base-2 logarithm of a positive rational: the `k` with
`2^k ≤ x < 2^(k+1)`. -/
def ilog2 (x : ℚ) : ℤ :=
  let k : ℤ := (nlog2 x.num.natAbs : ℤ) - (nlog2 x.den : ℤ)
  if (2 : ℚ) ^ k ≤ x then k else k - 1

/-- Nearest integer, ties to even. -/
def roundNE (y : ℚ) : ℤ :=
  let f := ⌊y⌋
  let r := y - f
  if r < 1 / 2 then f
  else if 1 / 2 < r then f + 1
  else if f % 2 = 0 then f else f + 1

/-- Round an exact result to format `f`: round-to-nearest-even on the grid of
the binade of `x` (the subnormal grid below `2^emin`), overflowing to an
infinity. -/
def Fmt.round (f : Fmt) (x : ℚ) : FP :=
  if x = 0 then FP.fin 0
  else
    let e : ℤ := max (ilog2 |x|) f.emin - ((f.prec : ℤ) - 1)
    let y : ℚ := (roundNE (x / 2 ^ e) : ℚ) * 2 ^ e
    if (2 : ℚ) ^ (f.emax + 1) ≤ |y| then (if 0 < x then FP.pinf else FP.ninf)
    else FP.fin y

/-- Conversion of an `int` to a floating type. -/
def Fmt.ofInt (f : Fmt) (z : ℤ) : FP := f.round (z : ℚ)

/-- Conversion between floating types (`float` to `double` is exact, `double`
to `float` rounds). -/
def Fmt.cast (f : Fmt) : FP → FP
  | FP.fin v => f.round v
  | x => x

/-- Division `a / b` in format `f`. -/
def Fmt.div (f : Fmt) : FP → FP → FP
  | FP.fin a, FP.fin b =>
      if b = 0 then (if a = 0 then FP.nan else if 0 < a then FP.pinf else FP.ninf)
      else f.round (a / b)
  | FP.fin _, FP.pinf => FP.fin 0
  | FP.fin _, FP.ninf => FP.fin 0
  | FP.pinf, FP.fin b => if 0 ≤ b then FP.pinf else FP.ninf
  | FP.ninf, FP.fin b => if 0 ≤ b then FP.ninf else FP.pinf
  | _, _ => FP.nan

/-- Multiplication `a * b` in format `f`. -/
def Fmt.mul (f : Fmt) : FP → FP → FP
  | FP.fin a, FP.fin b => f.round (a * b)
  | FP.fin a, FP.pinf => if a = 0 then FP.nan else if 0 < a then FP.pinf else FP.ninf
  | FP.fin a, FP.ninf => if a = 0 then FP.nan else if 0 < a then FP.ninf else FP.pinf
  | FP.pinf, FP.fin b => if b = 0 then FP.nan else if 0 < b then FP.pinf else FP.ninf
  | FP.ninf, FP.fin b => if b = 0 then FP.nan else if 0 < b then FP.ninf else FP.pinf
  | FP.pinf, FP.pinf => FP.pinf
  | FP.ninf, FP.ninf => FP.pinf
  | FP.pinf, FP.ninf => FP.ninf
  | FP.ninf, FP.pinf => FP.ninf
  | _, _ => FP.nan

/-- The conversion `(uint8_t) x` of a `float`.  C++ defines it when the
truncated value lies in `0..255`, that is for `-1 < x < 256`.  A finite operand
from 256 up to `2^31` goes through a 32-bit word that holds the truncated value,
whether the conversion instruction is signed or unsigned, and the byte store
keeps the low byte of that word.  For every other operand (`-1` and below,
`2^31` and above, the infinities, NaN) the result depends on the target (a
saturating conversion gives 0 for a negative operand, a signed one the low byte
of the negative word) and the source has no lower clamp: there the result is
what the parameter `undef` gives. -/
def f32_to_u8 (undef : FP → ℕ) : FP → ℕ
  | FP.fin v => if -1 < v ∧ v < 2 ^ 31 then (⌊v⌋).toNat % 256 else undef (FP.fin v) % 256
  | x => undef x % 256

/-! ## Hardware -/

/-- The pins the code drives (their numbers live in the board variant). -/
inductive Pin where
  | WB_IO2
  | WB_IO4
  | WB_IO5
  | LED_GREEN
  | LED_BLUE
  deriving DecidableEq, Repr

/-- A pin operation, as logged. -/
inductive PinOp where
  | mode (p : Pin) (output : Bool)
  | write (p : Pin) (high : Bool)
  | toggle (p : Pin)
  deriving DecidableEq, Repr

/-- A call into `Wire`, as logged. -/
inductive WireOp where
  | start
  | stop
  | transmit (addr : ℤ) (bytes : List ℕ)
  | request (addr : ℤ) (n : ℕ)
  deriving DecidableEq, Repr

/-- What the bus does in one transaction: the status `Wire.endTransmission`
returns (0 is success), the milliseconds the write phase takes, and the bytes
`Wire.available`/`Wire.read` hand out after `Wire.requestFrom`, each with the
milliseconds that pass while it is fetched.  `Wire.requestFrom(addr, n)` of the
Arduino core buffers at most `n` bytes; the driver does not rely on it, so the
list may be longer. -/
structure Txn where
  status : ℕ
  wtime : ℕ
  rx : List (ℕ × ℕ)
  deriving DecidableEq, Repr

/-- The hardware state: `millis()`, the outcomes of the bus transactions still
to come, and the logs of `Wire` calls and pin operations (latest last). -/
structure Hw where
  millis : ℕ
  bus : List Txn
  wire : List WireOp
  pins : List PinOp
  deriving DecidableEq, Repr

/-- The Arduino `delay(ms)`. -/
def Hw.delay (hw : Hw) (ms : ℕ) : Hw := { hw with millis := hw.millis + ms }

/-- The Arduino `pinMode(p, OUTPUT / INPUT)`. -/
def Hw.pinMode (hw : Hw) (p : Pin) (output : Bool) : Hw :=
  { hw with pins := hw.pins ++ [PinOp.mode p output] }

/-- The Arduino `digitalWrite(p, HIGH / LOW)`. -/
def Hw.digitalWrite (hw : Hw) (p : Pin) (high : Bool) : Hw :=
  { hw with pins := hw.pins ++ [PinOp.write p high] }

/-- The Arduino `digitalToggle(p)`. -/
def Hw.digitalToggle (hw : Hw) (p : Pin) : Hw :=
  { hw with pins := hw.pins ++ [PinOp.toggle p] }

/-- Append a `Wire` call to the log. -/
def Hw.logWire (hw : Hw) (op : WireOp) : Hw := { hw with wire := hw.wire ++ [op] }

/-- Take the outcome of the next bus transaction; a bus with no outcome left
does not acknowledge (status 2). -/
def Hw.nextTxn (hw : Hw) : Txn × Hw :=
  match hw.bus with
  | [] => (⟨2, 0, []⟩, hw)
  | t :: ts => (t, { hw with bus := ts })

/-! ## The sensor class (`RAK12035_SoilMoisture.cpp`) -/

/-- The private members of `class RAK12035`, with their in-class initialisers. -/
structure RAK12035 where
  _sensorAddress : ℤ := 0x20
  _zero_val : ℕ := 200
  _hundred_val : ℕ := 500
  deriving DecidableEq, Repr

namespace RAK12035

/-- The constructor `RAK12035(uint8_t addr = SLAVE_I2C_ADDRESS_DEFAULT)`. -/
def RAK12035 (addr : ℕ := 0x20) : SoilSensor.RAK12035 := { _sensorAddress := (addr : ℤ) }

/-- The receive loop of `read_rak12035`: `while (Wire.available())` stores the
next byte in `data[i++]` and leaves once more than 1000 ms have passed since
`timeout`.  Returns the bytes stored, in order, and the clock. -/
def read_loop (timeout : ℕ) : List (ℕ × ℕ) → ℕ → List ℕ → List ℕ × ℕ
  | [], now, data => (data, now)
  | (b, dt) :: rest, now, data =>
      if now + dt - timeout > 1000 then (data ++ [b % 256], now + dt)
      else read_loop timeout rest (now + dt) (data ++ [b % 256])

/-- The method `read_rak12035(reg, data, length)`.  The second component is what
the loop stored at `data[0]`, `data[1]`, ...; its length is the final `i`. -/
def read_rak12035 (s : SoilSensor.RAK12035) (reg length : ℕ) (hw : Hw) : Bool × List ℕ × Hw :=
  let (t, hw1) := hw.nextTxn
  let hw2 := (hw1.logWire (WireOp.transmit s._sensorAddress [reg])).delay t.wtime
  if t.status ≠ 0 then (false, [], hw2)
  else
    let hw3 := (hw2.delay 20).logWire (WireOp.request s._sensorAddress length)
    let (data, now) := read_loop hw3.millis t.rx hw3.millis []
    (decide (data.length = length), data, { hw3 with millis := now })

/-- The method `write_rak12035(reg, data)`. -/
def write_rak12035 (s : SoilSensor.RAK12035) (reg data : ℕ) (hw : Hw) : Bool × Hw :=
  let (t, hw1) := hw.nextTxn
  let hw2 := (hw1.logWire (WireOp.transmit s._sensorAddress [reg, data])).delay t.wtime
  (decide (t.status = 0), hw2)

/-- The method `reset()`. -/
def reset (hw : Hw) : Hw :=
  (((hw.pinMode Pin.WB_IO4 true).digitalWrite Pin.WB_IO4 false).delay 500).digitalWrite
    Pin.WB_IO4 true

/-- The method `get_sensor_version(version)`; `version` is the old content of
the output byte. -/
def get_sensor_version (s : SoilSensor.RAK12035) (version : ℕ) (hw : Hw) : Bool × ℕ × Hw :=
  let (ok, data, hw1) := s.read_rak12035 0x04 1 hw
  (ok, data.headD version, hw1)

/-- The method `get_sensor_capacitance(capacitance)`: the output is always
written, from a buffer that starts as `{0, 0}`. -/
def get_sensor_capacitance (s : SoilSensor.RAK12035) (hw : Hw) : Bool × ℕ × Hw :=
  let (ok, data, hw1) := s.read_rak12035 0x01 2 hw
  (ok, ((data.getD 0 0 <<< 8) ||| data.getD 1 0) % 65536, hw1)

/-- The `float steps = 100.0 / (float)(_hundred_val - _zero_val)` of
`get_sensor_moisture`: an `int` difference converted to `float`, a `double`
division, and the narrowing to `float`. -/
def steps (s : SoilSensor.RAK12035) : FP :=
  binary32.cast (binary64.div (FP.fin 100)
    (binary64.cast (binary32.ofInt ((s._hundred_val : ℤ) - (s._zero_val : ℤ)))))

/-- The expression `(uint8_t)((capacitance - _zero_val) * steps)` followed by
the clamp `if (moisture[0] > 100) moisture[0] = 100`; `undef` is the parameter
of `f32_to_u8`. -/
def moisture_of (s : SoilSensor.RAK12035) (undef : FP → ℕ) (capacitance : ℕ) : ℕ :=
  let m := f32_to_u8 undef
    (binary32.mul (binary32.ofInt ((capacitance : ℤ) - (s._zero_val : ℤ))) s.steps)
  if m > 100 then 100 else m

/-- The method `get_sensor_moisture(moisture)`; `moisture` is the old content
of the output byte, kept when the read fails, and `undef` is the parameter of
`f32_to_u8`. -/
def get_sensor_moisture (s : SoilSensor.RAK12035) (undef : FP → ℕ) (moisture : ℕ) (hw : Hw) :
    Bool × ℕ × Hw :=
  let (ok, capacitance, hw1) := s.get_sensor_capacitance hw
  if ok then (true, s.moisture_of undef capacitance, hw1) else (false, moisture, hw1)

/-- The method `get_sensor_addr()`, which returns the `int` member as `uint8_t`. -/
def get_sensor_addr (s : SoilSensor.RAK12035) : ℕ := (s._sensorAddress % 256).toNat

/-- The method `set_i2c_addr(addr)`. -/
def set_i2c_addr (s : SoilSensor.RAK12035) (addr : ℕ) : Bool × SoilSensor.RAK12035 :=
  if addr < 1 ∨ addr > 127 then (false, s)
  else (true, { s with _sensorAddress := (addr : ℤ) })

/-- The method `set_sensor_addr(addr)`. -/
def set_sensor_addr (s : SoilSensor.RAK12035) (addr : ℕ) (hw : Hw) :
    Bool × SoilSensor.RAK12035 × Hw :=
  if addr < 1 ∨ addr > 127 then (false, s, hw)
  else
    let (ok, hw1) := s.write_rak12035 0x03 addr hw
    if ok then (true, { s with _sensorAddress := (addr : ℤ) }, reset hw1)
    else (false, s, hw1)

/-- The polling loop of `sensor_on`: `while (!get_sensor_version(&data))`, left
with `false` once more than 5000 ms have passed since `timeout`.  `fuel` bounds
the number of polls; `none` means the bound was reached. -/
def poll_version (s : SoilSensor.RAK12035) (timeout : ℕ) : ℕ → ℕ → Hw → Option (Bool × Hw)
  | 0, _, _ => none
  | fuel + 1, data, hw =>
      let (ok, data1, hw1) := s.get_sensor_version data hw
      if ok then some (true, hw1)
      else if hw1.millis - timeout > 5000 then some (false, hw1)
      else poll_version s timeout fuel data1 hw1

/-- The method `sensor_on()`. -/
def sensor_on (s : SoilSensor.RAK12035) (fuel : ℕ) (hw : Hw) : Option (Bool × Hw) :=
  let hw1 := (hw.digitalWrite Pin.WB_IO2 true).digitalWrite Pin.WB_IO4 true
  match poll_version s hw1.millis fuel 0 hw1 with
  | none => none
  | some (false, hw2) => some (false, hw2)
  | some (true, hw2) => some (true, hw2.delay 500)

/-- The method `sensor_sleep()`. -/
def sensor_sleep (hw : Hw) : Hw :=
  (hw.digitalWrite Pin.WB_IO4 false).digitalWrite Pin.WB_IO2 false

/-- The method `set_zero_val(zero_val)`. -/
def set_zero_val (s : SoilSensor.RAK12035) (zero_val : ℕ) : SoilSensor.RAK12035 :=
  { s with _zero_val := zero_val }

/-- The method `set_hundred_val(hundred_val)`. -/
def set_hundred_val (s : SoilSensor.RAK12035) (hundred_val : ℕ) : SoilSensor.RAK12035 :=
  { s with _hundred_val := hundred_val }

end RAK12035

/-! ## The application glue (`soil.cpp`)

`MYLOG`, `Serial.flush`, the BLE echo and the calls on `g_task_wakeup_timer`
act on collaborators declared in `app.h`; they touch none of the state below
and are left out.  Every function that reads the moisture carries the parameter
`undef` of `f32_to_u8`. -/

/-- The struct `calib_values_s`, with its in-class initialisers. -/
structure calib_values_s where
  zero_val : ℕ := 75
  hundred_val : ℕ := 250
  deriving DecidableEq, Repr

/-- The fields of `g_soil_data` that `read_soil` writes. -/
structure soil_data_s where
  temp_1 : ℕ := 0
  temp_2 : ℕ := 0
  humid_1 : ℕ := 0
  valid : ℕ := 0
  deriving DecidableEq, Repr

/-- The internal file system as far as the file `"SOIL"` goes: its content
(`none` when the file does not exist), whether opening it for writing succeeds,
and the number of `write` calls carried out so far. -/
structure Flash where
  soil : Option (List ℕ) := none
  writable : Bool := true
  writes : ℕ := 0
  deriving DecidableEq, Repr

/-- The globals of `soil.cpp` together with the hardware. -/
structure App where
  sensor : RAK12035 := {}
  calib_values : calib_values_s := {}
  g_soil_data : soil_data_s := {}
  flash : Flash := {}
  hw : Hw
  deriving DecidableEq, Repr

/-- The `sizeof(calib_values_s)` bytes of a record, as the little-endian
Cortex-M4 lays them out. -/
def calib_values_s.bytes (c : calib_values_s) : List ℕ :=
  [c.zero_val % 256, c.zero_val / 256 % 256, c.hundred_val % 256, c.hundred_val / 256 % 256]

/-- The record held by four bytes of memory. -/
def calib_values_s.ofBytes (b : List ℕ) : calib_values_s :=
  { zero_val := b.getD 0 0 + 256 * b.getD 1 0, hundred_val := b.getD 2 0 + 256 * b.getD 3 0 }

/-- The call `soil_file.read((uint8_t *)&calib_values, sizeof(calib_values_s))`
on a file with content `file`: at most four bytes overwrite the start of the
record. -/
def calib_values_s.read (c : calib_values_s) (file : List ℕ) : calib_values_s :=
  calib_values_s.ofBytes (file.take 4 ++ c.bytes.drop (file.take 4).length)

/-- The sequence `open(soil_name, FILE_O_WRITE)`, `write` of the record, `flush`,
`close`: when the open succeeds the bytes are appended to the file, which is
created if absent. -/
def Flash.write_record (fl : Flash) (c : calib_values_s) : Flash :=
  if fl.writable then
    { fl with soil := some (fl.soil.getD [] ++ c.bytes), writes := fl.writes + 1 }
  else fl

/-- The function `save_calib()`. -/
def save_calib (a : App) : App :=
  { a with flash := ({ a.flash with soil := none }).write_record a.calib_values }

/-- The function `read_calib()`: a `read` on a file that could not be opened
transfers nothing. -/
def read_calib (a : App) : App :=
  match a.flash.soil with
  | some file => { a with calib_values := a.calib_values.read file }
  | none =>
      let hw1 := a.hw.delay 100
      let default_settings : calib_values_s := {}
      let fl1 := a.flash.write_record default_settings
      match fl1.soil with
      | some file => { a with calib_values := a.calib_values.read file, flash := fl1, hw := hw1 }
      | none => { a with flash := fl1, hw := hw1 }

/-- The function `get_calib(is_dry)`. -/
def get_calib (a : App) (is_dry : Bool) : ℕ :=
  if is_dry then a.calib_values.zero_val else a.calib_values.hundred_val

/-- The loop `for (int readings = 0; readings < 100; readings++)` of
`start_calib`, with the number of rounds left as first argument: the reading is
added to the `uint16_t new_value`, which is then halved. -/
def calib_rounds (s : RAK12035) : ℕ → ℕ → Hw → ℕ × Hw
  | 0, new_value, hw => (new_value, hw)
  | k + 1, new_value, hw =>
      let (_, new_reading, hw1) := s.get_sensor_capacitance hw
      let new_value1 := (new_value + new_reading) % 65536
      let new_value2 := new_value1 / 2
      let hw2 := (((hw1.delay 250).digitalToggle Pin.LED_GREEN).digitalToggle Pin.LED_BLUE)
      calib_rounds s k new_value2 hw2

/-- The part of `start_calib` that follows a successful `sensor.sensor_on()`. -/
def start_calib_awake (is_dry : Bool) (a : App) (hw : Hw) : ℕ × App :=
  let (_, new_value0, hw1) := a.sensor.get_sensor_capacitance hw
  let (new_value, hw2) := calib_rounds a.sensor 100 new_value0 hw1
  let need_save :=
    if is_dry then decide (a.calib_values.zero_val ≠ new_value)
    else decide (a.calib_values.hundred_val ≠ new_value)
  let cv : calib_values_s :=
    if is_dry then { a.calib_values with zero_val := new_value }
    else { a.calib_values with hundred_val := new_value }
  let a1 : App := { a with calib_values := cv, hw := hw2 }
  let a2 : App :=
    if need_save then
      let a3 := save_calib a1
      { a3 with sensor := (a3.sensor.set_zero_val cv.zero_val).set_hundred_val cv.hundred_val }
    else a1
  let hw3 := (a2.hw.digitalWrite Pin.LED_BLUE false).digitalWrite Pin.LED_GREEN false
  (new_value, { a2 with hw := (RAK12035.sensor_sleep hw3).logWire WireOp.stop })

/-- The function `start_calib(is_dry)`; `fuel` bounds the polls of `sensor_on`
and `none` means that bound was reached. -/
def start_calib (fuel : ℕ) (is_dry : Bool) (a : App) : Option (ℕ × App) :=
  let hw0 := ((a.hw.digitalWrite Pin.LED_GREEN false).digitalWrite Pin.LED_BLUE true).logWire
    WireOp.start
  match a.sensor.sensor_on fuel hw0 with
  | none => none
  | some (false, hw1) =>
      some (get_calib a is_dry, { a with hw := hw1.logWire WireOp.stop })
  | some (true, hw1) => some (start_calib_awake is_dry a hw1)

/-! ## Vocabulary for the statements -/

/-- The capacitance values that the next `k` rounds of `calib_rounds` read. -/
def calib_readings (s : RAK12035) : ℕ → Hw → List ℕ
  | 0, _ => []
  | k + 1, hw =>
      let (_, new_reading, hw1) := s.get_sensor_capacitance hw
      new_reading ::
        calib_readings s k (((hw1.delay 250).digitalToggle Pin.LED_GREEN).digitalToggle Pin.LED_BLUE)

/-- A bus transaction that is acknowledged and returns the 16-bit value `c`,
high byte first. -/
def reply16 (c : ℕ) : Txn := ⟨0, 1, [(c / 256, 0), (c % 256, 0)]⟩

/-- A bus transaction that is acknowledged and returns the firmware version 2. -/
def version_reply : Txn := ⟨0, 1, [(2, 0)]⟩

/-- Fresh hardware on which the bus will behave as scripted. -/
def hw_of (bus : List Txn) : Hw := ⟨0, bus, [], []⟩

/-- A session with the given calibration endpoints at the default address. -/
def calibrated (dry wet : ℕ) : RAK12035 :=
  (({} : RAK12035).set_zero_val dry).set_hundred_val wet

/-- A sample value of the parameter of `f32_to_u8`, used in the concrete
examples: the conversion of a target whose instruction truncates to a signed
32-bit word and gives `0x80000000` for an operand that does not fit (as
`CVTTSS2SI` of x86-64 does), with the low byte kept. -/
def wrap_i32 : FP → ℕ
  | FP.fin v =>
      let t : ℤ := if v < 0 then -⌊-v⌋ else ⌊v⌋
      if -2 ^ 31 ≤ t ∧ t < 2 ^ 31 then (t % 256).toNat else 0
  | _ => 0

/-! # Theorems -/

/-! ## Rounding lemmas -/

/-- With enough fuel the halving loop brackets `n` between two powers of two. -/
theorem log2Fuel_spec : ∀ (fuel n : ℕ), n ≤ fuel → 1 ≤ n →
    2 ^ log2Fuel fuel n ≤ n ∧ n < 2 ^ (log2Fuel fuel n + 1) := by
  intro fuel
  induction fuel with
  | zero => intro n h1 h2; omega
  | succ fuel ih =>
    intro n h1 h2
    unfold log2Fuel
    split
    · rename_i h
      obtain ⟨ha, hb⟩ := ih (n / 2) (by omega) (by omega)
      rw [pow_succ] at hb ⊢
      constructor
      · omega
      · rw [pow_succ]; omega
    · simp; omega

/-- The value `nlog2 n` is the floor of the base-2 logarithm of `n ≥ 1`. -/
theorem nlog2_spec (n : ℕ) (h : 1 ≤ n) : 2 ^ nlog2 n ≤ n ∧ n < 2 ^ (nlog2 n + 1) :=
  log2Fuel_spec n n le_rfl h

/-- The value `ilog2 x` is the floor of the base-2 logarithm of `x > 0`. -/
theorem ilog2_spec (x : ℚ) (hx : 0 < x) :
    (2 : ℚ) ^ ilog2 x ≤ x ∧ x < (2 : ℚ) ^ (ilog2 x + 1) := by
  have hnum : 0 < x.num := Rat.num_pos.mpr hx
  have hden : 0 < x.den := x.den_pos
  obtain ⟨a1, a2⟩ := nlog2_spec x.num.natAbs (by omega)
  obtain ⟨b1, b2⟩ := nlog2_spec x.den (by omega)
  have hxeq : x = (x.num.natAbs : ℚ) / (x.den : ℚ) := by
    have : ((x.num.natAbs : ℤ) : ℚ) = (x.num : ℚ) := by
      rw [Int.natAbs_of_nonneg hnum.le]
    rw [← Int.cast_natCast, this]
    exact (Rat.num_div_den x).symm
  have qa1 : (2 : ℚ) ^ (nlog2 x.num.natAbs) ≤ (x.num.natAbs : ℚ) := by exact_mod_cast a1
  have qa2 : (x.num.natAbs : ℚ) < (2 : ℚ) ^ (nlog2 x.num.natAbs + 1) := by exact_mod_cast a2
  have qb1 : (2 : ℚ) ^ (nlog2 x.den) ≤ (x.den : ℚ) := by exact_mod_cast b1
  have qb2 : (x.den : ℚ) < (2 : ℚ) ^ (nlog2 x.den + 1) := by exact_mod_cast b2
  have hdq : (0 : ℚ) < x.den := by exact_mod_cast hden
  have h2 : (0 : ℚ) < 2 := by norm_num
  have hk : ∀ (a b : ℕ), (2 : ℚ) ^ ((a : ℤ) - (b : ℤ)) = (2 : ℚ) ^ a / (2 : ℚ) ^ b := by
    intro a b
    rw [zpow_sub₀ (by norm_num : (2 : ℚ) ≠ 0), zpow_natCast, zpow_natCast]
  unfold ilog2
  simp only
  split
  · rename_i h
    refine ⟨h, ?_⟩
    have : ((nlog2 x.num.natAbs : ℤ) - (nlog2 x.den : ℤ) + 1) =
        (((nlog2 x.num.natAbs + 1 : ℕ) : ℤ) - (nlog2 x.den : ℤ)) := by push_cast; ring
    rw [this, hk]
    calc x = (x.num.natAbs : ℚ) / (x.den : ℚ) := hxeq
      _ < (2 : ℚ) ^ (nlog2 x.num.natAbs + 1) / (x.den : ℚ) := by
          apply div_lt_div_of_pos_right qa2 hdq
      _ ≤ (2 : ℚ) ^ (nlog2 x.num.natAbs + 1) / (2 : ℚ) ^ (nlog2 x.den) := by
          apply div_le_div_of_nonneg_left (by positivity) (by positivity) qb1
  · rename_i h
    push_neg at h
    have : ((nlog2 x.num.natAbs : ℤ) - (nlog2 x.den : ℤ) - 1) =
        ((nlog2 x.num.natAbs : ℤ) - ((nlog2 x.den + 1 : ℕ) : ℤ)) := by push_cast; ring
    constructor
    · rw [this, hk]
      calc (2 : ℚ) ^ (nlog2 x.num.natAbs) / (2 : ℚ) ^ (nlog2 x.den + 1)
          ≤ (x.num.natAbs : ℚ) / (2 : ℚ) ^ (nlog2 x.den + 1) := by
            apply div_le_div_of_nonneg_right qa1 (by positivity)
        _ ≤ (x.num.natAbs : ℚ) / (x.den : ℚ) := by
            apply div_le_div_of_nonneg_left (by positivity) hdq qb2.le
        _ = x := hxeq.symm
    · simpa using h

/-- Rounding to the nearest integer moves a number by at most one half. -/
theorem roundNE_err (y : ℚ) : |((roundNE y : ℤ) : ℚ) - y| ≤ 1 / 2 := by
  have h1 := Int.floor_le y
  have h2 := Int.lt_floor_add_one y
  unfold roundNE
  simp only
  rw [abs_le]
  split
  · constructor <;> linarith
  · split
    · push_cast; constructor <;> linarith
    · split
      · constructor <;> linarith
      · push_cast; constructor <;> linarith

/-- An integer rounds to itself. -/
theorem roundNE_intCast (z : ℤ) : roundNE (z : ℚ) = z := by
  unfold roundNE
  simp

/-- In the normal range rounding yields a finite number within a relative
error of `2 ^ (-prec)`. -/
theorem round_normal (f : Fmt) (x : ℚ) (hx0 : x ≠ 0) (hlo : (2 : ℚ) ^ f.emin ≤ |x|)
    (hhi : |x| < (2 : ℚ) ^ f.emax) :
    ∃ y, f.round x = FP.fin y ∧ |y - x| ≤ |x| * (2 : ℚ) ^ (-(f.prec : ℤ)) := by
  have hpos : 0 < |x| := abs_pos.mpr hx0
  obtain ⟨s1, s2⟩ := ilog2_spec |x| hpos
  have h12 : (1 : ℚ) < 2 := by norm_num
  have hL : f.emin ≤ ilog2 |x| := by
    have : (2 : ℚ) ^ f.emin < (2 : ℚ) ^ (ilog2 |x| + 1) := lt_of_le_of_lt hlo s2
    rw [zpow_lt_zpow_iff_right₀ h12] at this
    omega
  have hmax : max (ilog2 |x|) f.emin = ilog2 |x| := max_eq_left hL
  set e : ℤ := ilog2 |x| - ((f.prec : ℤ) - 1) with he
  have hepos : (0 : ℚ) < (2 : ℚ) ^ e := by positivity
  have herr := roundNE_err (x / 2 ^ e)
  have hy : |((roundNE (x / 2 ^ e) : ℤ) : ℚ) * 2 ^ e - x| ≤ (2 : ℚ) ^ e / 2 := by
    have : ((roundNE (x / 2 ^ e) : ℤ) : ℚ) * 2 ^ e - x =
        (((roundNE (x / 2 ^ e) : ℤ) : ℚ) - x / 2 ^ e) * 2 ^ e := by
      field_simp
    rw [this, abs_mul, abs_of_pos hepos]
    calc |((roundNE (x / 2 ^ e) : ℤ) : ℚ) - x / 2 ^ e| * 2 ^ e ≤ 1 / 2 * 2 ^ e := by
          apply mul_le_mul_of_nonneg_right herr hepos.le
      _ = 2 ^ e / 2 := by ring
  have hbound : (2 : ℚ) ^ e / 2 ≤ |x| * (2 : ℚ) ^ (-(f.prec : ℤ)) := by
    have : (2 : ℚ) ^ e / 2 = (2 : ℚ) ^ (ilog2 |x|) * (2 : ℚ) ^ (-(f.prec : ℤ)) := by
      rw [he, ← zpow_add₀ (by norm_num : (2 : ℚ) ≠ 0), div_eq_mul_inv, ← zpow_neg_one,
        ← zpow_add₀ (by norm_num : (2 : ℚ) ≠ 0)]
      congr 1
      ring
    rw [this]
    apply mul_le_mul_of_nonneg_right s1 (by positivity)
  have hle1 : (2 : ℚ) ^ (-(f.prec : ℤ)) ≤ 1 := by
    apply zpow_le_one_of_nonpos₀ h12.le
    omega
  refine ⟨((roundNE (x / 2 ^ e) : ℤ) : ℚ) * 2 ^ e, ?_, le_trans hy hbound⟩
  unfold Fmt.round
  rw [if_neg hx0]
  simp only [hmax]
  rw [if_neg]
  rw [not_le]
  have hyy := le_trans hy hbound
  have : |((roundNE (x / 2 ^ e) : ℤ) : ℚ) * 2 ^ e| ≤ |x| + |x| * (2 : ℚ) ^ (-(f.prec : ℤ)) := by
    calc |((roundNE (x / 2 ^ e) : ℤ) : ℚ) * 2 ^ e|
        = |x + (((roundNE (x / 2 ^ e) : ℤ) : ℚ) * 2 ^ e - x)| := by congr 1; ring
      _ ≤ |x| + |((roundNE (x / 2 ^ e) : ℤ) : ℚ) * 2 ^ e - x| := abs_add _ _
      _ ≤ |x| + |x| * (2 : ℚ) ^ (-(f.prec : ℤ)) := by linarith
  have h3 : |x| * (2 : ℚ) ^ (-(f.prec : ℤ)) ≤ |x| := by
    calc |x| * (2 : ℚ) ^ (-(f.prec : ℤ)) ≤ |x| * 1 := by
          apply mul_le_mul_of_nonneg_left hle1 hpos.le
      _ = |x| := mul_one _
  have h4 : (2 : ℚ) ^ (f.emax + 1) = 2 * (2 : ℚ) ^ f.emax := by
    rw [zpow_add₀ (by norm_num : (2 : ℚ) ≠ 0), zpow_one]; ring
  rw [h4]
  linarith

/-- An integer of fewer than `prec` bits is represented exactly. -/
theorem round_int (f : Fmt) (z : ℤ) (hz : |(z : ℚ)| < (2 : ℚ) ^ (f.prec : ℤ)) (hemin : f.emin ≤ 0)
    (hemax : (f.prec : ℤ) ≤ f.emax + 1) : f.round (z : ℚ) = FP.fin (z : ℚ) := by
  by_cases hz0 : z = 0
  · subst hz0
    simp [Fmt.round]
  have hx0 : (z : ℚ) ≠ 0 := by exact_mod_cast hz0
  have hpos : 0 < |(z : ℚ)| := abs_pos.mpr hx0
  have h12 : (1 : ℚ) < 2 := by norm_num
  have hge1 : (1 : ℚ) ≤ |(z : ℚ)| := by
    rw [← Int.cast_abs]
    have : (1 : ℤ) ≤ |z| := Int.one_le_abs hz0
    exact_mod_cast this
  obtain ⟨s1, s2⟩ := ilog2_spec |(z : ℚ)| hpos
  have hL0 : 0 ≤ ilog2 |(z : ℚ)| := by
    have : (2 : ℚ) ^ (0 : ℤ) < (2 : ℚ) ^ (ilog2 |(z : ℚ)| + 1) := by
      rw [zpow_zero]; exact lt_of_le_of_lt hge1 s2
    rw [zpow_lt_zpow_iff_right₀ h12] at this
    omega
  have hLp : ilog2 |(z : ℚ)| < (f.prec : ℤ) := by
    have : (2 : ℚ) ^ (ilog2 |(z : ℚ)|) < (2 : ℚ) ^ (f.prec : ℤ) := lt_of_le_of_lt s1 hz
    rwa [zpow_lt_zpow_iff_right₀ h12] at this
  have hmax : max (ilog2 |(z : ℚ)|) f.emin = ilog2 |(z : ℚ)| := max_eq_left (by omega)
  obtain ⟨m, hm⟩ : ∃ m : ℕ, ilog2 |(z : ℚ)| - ((f.prec : ℤ) - 1) = -(m : ℤ) :=
    ⟨((f.prec : ℤ) - 1 - ilog2 |(z : ℚ)|).toNat, by
      rw [Int.toNat_of_nonneg (by omega)]; ring⟩
  have hdiv : (z : ℚ) / (2 : ℚ) ^ (-(m : ℤ)) = ((z * 2 ^ m : ℤ) : ℚ) := by
    rw [zpow_neg, zpow_natCast]
    push_cast
    field_simp
  have hmul : ((z * 2 ^ m : ℤ) : ℚ) * (2 : ℚ) ^ (-(m : ℤ)) = (z : ℚ) := by
    rw [zpow_neg, zpow_natCast]
    push_cast
    field_simp
  unfold Fmt.round
  rw [if_neg hx0]
  simp only [hmax, hm, hdiv, roundNE_intCast, hmul]
  rw [if_neg]
  rw [not_le]
  calc |(z : ℚ)| < (2 : ℚ) ^ (f.prec : ℤ) := hz
    _ ≤ (2 : ℚ) ^ (f.emax + 1) := zpow_le_zpow_right₀ h12.le hemax

/-- The conversion of a 16-bit difference to `float` is exact. -/
theorem binary32_ofInt_exact (z : ℤ) (hz : |z| ≤ 65535) : binary32.ofInt z = FP.fin (z : ℚ) := by
  unfold Fmt.ofInt
  apply round_int
  · have : |(z : ℚ)| ≤ 65535 := by
      rw [← Int.cast_abs]; exact_mod_cast hz
    have h2 : (2 : ℚ) ^ ((binary32.prec : ℕ) : ℤ) = 16777216 := by
      simp only [binary32]; norm_num
    rw [h2]; linarith
  · simp [Fmt.emin, binary32]
  · simp [binary32]

/-- The conversion of a 16-bit difference to `double` is exact. -/
theorem binary64_round_int (z : ℤ) (hz : |z| ≤ 65535) :
    binary64.round (z : ℚ) = FP.fin (z : ℚ) := by
  apply round_int
  · have : |(z : ℚ)| ≤ 65535 := by
      rw [← Int.cast_abs]; exact_mod_cast hz
    have h2 : (2 : ℚ) ^ ((binary64.prec : ℕ) : ℤ) = 9007199254740992 := by
      simp only [binary64]; norm_num
    rw [h2]; linarith
  · simp [Fmt.emin, binary64]
  · simp [binary64]

/-- The step is the quotient `100 / (wet - dry)` up to two roundings. -/
theorem steps_spec (s : RAK12035) (h1 : s._zero_val < s._hundred_val)
    (h2 : s._hundred_val ≤ 65535) :
    ∃ σ : ℚ, s.steps = FP.fin σ ∧
      |σ - 100 / ((s._hundred_val : ℚ) - (s._zero_val : ℚ))| ≤
        100 / ((s._hundred_val : ℚ) - (s._zero_val : ℚ)) / 16000000 := by
  set d : ℤ := (s._hundred_val : ℤ) - (s._zero_val : ℤ) with hd
  have hd1 : 1 ≤ d := by omega
  have hd2 : d ≤ 65535 := by omega
  have hdq : ((s._hundred_val : ℚ) - (s._zero_val : ℚ)) = (d : ℚ) := by
    rw [hd]; push_cast; ring
  rw [hdq]
  have hdq1 : (1 : ℚ) ≤ (d : ℚ) := by exact_mod_cast hd1
  have hdq2 : (d : ℚ) ≤ 65535 := by exact_mod_cast hd2
  have hdpos : (0 : ℚ) < (d : ℚ) := by linarith
  have hQpos : (0 : ℚ) < 100 / (d : ℚ) := by positivity
  have hQlo : (1 : ℚ) / 1024 ≤ 100 / (d : ℚ) := by
    rw [div_le_div_iff₀ (by norm_num) hdpos]; linarith
  have hQhi : 100 / (d : ℚ) ≤ 100 := by
    rw [div_le_iff₀ hdpos]; nlinarith
  have h12 : (1 : ℚ) ≤ 2 := by norm_num
  -- the double division
  obtain ⟨q1, hq1, hq1e⟩ := round_normal binary64 (100 / (d : ℚ)) hQpos.ne'
    (by
      rw [abs_of_pos hQpos]
      calc (2 : ℚ) ^ binary64.emin ≤ (2 : ℚ) ^ (-10 : ℤ) :=
            zpow_le_zpow_right₀ h12 (by simp [Fmt.emin, binary64])
        _ = 1 / 1024 := by norm_num
        _ ≤ 100 / (d : ℚ) := hQlo)
    (by
      rw [abs_of_pos hQpos]
      calc 100 / (d : ℚ) < (2 : ℚ) ^ (7 : ℤ) := by norm_num; linarith
        _ ≤ (2 : ℚ) ^ binary64.emax := zpow_le_zpow_right₀ h12 (by simp [binary64]))
  rw [abs_of_pos hQpos] at hq1e
  have hu53 : (2 : ℚ) ^ (-((binary64.prec : ℕ) : ℤ)) = 1 / 9007199254740992 := by
    simp only [binary64]; norm_num
  rw [hu53] at hq1e
  rw [abs_le] at hq1e
  have hq1lo : (1 : ℚ) / 2048 ≤ q1 := by nlinarith [hq1e.1]
  have hq1hi : q1 ≤ 101 := by nlinarith [hq1e.2]
  have hq1pos : 0 < q1 := by linarith
  -- the narrowing to float
  obtain ⟨σ, hσ, hσe⟩ := round_normal binary32 q1 hq1pos.ne'
    (by
      rw [abs_of_pos hq1pos]
      calc (2 : ℚ) ^ binary32.emin ≤ (2 : ℚ) ^ (-11 : ℤ) :=
            zpow_le_zpow_right₀ h12 (by simp [Fmt.emin, binary32])
        _ = 1 / 2048 := by norm_num
        _ ≤ q1 := hq1lo)
    (by
      rw [abs_of_pos hq1pos]
      calc q1 < (2 : ℚ) ^ (7 : ℤ) := by norm_num; linarith
        _ ≤ (2 : ℚ) ^ binary32.emax := zpow_le_zpow_right₀ h12 (by simp [binary32]))
  rw [abs_of_pos hq1pos] at hσe
  have hu24 : (2 : ℚ) ^ (-((binary32.prec : ℕ) : ℤ)) = 1 / 16777216 := by
    simp only [binary32]; norm_num
  rw [hu24] at hσe
  rw [abs_le] at hσe
  refine ⟨σ, ?_, ?_⟩
  · unfold RAK12035.steps
    rw [← hd, binary32_ofInt_exact d (by rw [abs_le]; constructor <;> omega)]
    simp only [Fmt.cast]
    rw [binary64_round_int d (by rw [abs_le]; constructor <;> omega)]
    simp only [Fmt.div]
    rw [if_neg hdpos.ne', hq1]
    simp only [Fmt.cast]
    exact hσ
  · rw [abs_le]
    constructor
    · nlinarith [hq1e.1, hq1e.2, hσe.1, hσe.2]
    · nlinarith [hq1e.1, hq1e.2, hσe.1, hσe.2]

/-- The scaled reading is the exact quotient up to a relative error of `1/8000000`. -/
theorem scaled_spec (s : RAK12035) (c : ℕ) (h1 : s._zero_val < s._hundred_val)
    (h2 : s._hundred_val ≤ 65535) (hc : c ≤ 65535) :
    ∃ p : ℚ, binary32.mul (binary32.ofInt ((c : ℤ) - (s._zero_val : ℤ))) s.steps = FP.fin p ∧
      |p - 100 * ((c : ℚ) - (s._zero_val : ℚ)) / ((s._hundred_val : ℚ) - (s._zero_val : ℚ))| ≤
        |100 * ((c : ℚ) - (s._zero_val : ℚ)) / ((s._hundred_val : ℚ) - (s._zero_val : ℚ))|
          / 8000000 := by
  obtain ⟨σ, hσ, hσe⟩ := steps_spec s h1 h2
  obtain ⟨n, hn⟩ : ∃ n : ℤ, n = (c : ℤ) - (s._zero_val : ℤ) := ⟨_, rfl⟩
  rw [← hn]
  have hnabs : |n| ≤ 65535 := by rw [abs_le]; constructor <;> omega
  have hnq : ((c : ℚ) - (s._zero_val : ℚ)) = (n : ℚ) := by rw [hn]; push_cast; ring
  rw [hnq, hσ, binary32_ofInt_exact n hnabs]
  have hdpos : (0 : ℚ) < (s._hundred_val : ℚ) - (s._zero_val : ℚ) := by
    have : (s._zero_val : ℚ) < (s._hundred_val : ℚ) := by exact_mod_cast h1
    linarith
  have hdle : (s._hundred_val : ℚ) - (s._zero_val : ℚ) ≤ 65535 := by
    have : (s._hundred_val : ℚ) ≤ 65535 := by exact_mod_cast h2
    have : (0 : ℚ) ≤ (s._zero_val : ℚ) := by positivity
    linarith
  have hd1 : (1 : ℚ) ≤ (s._hundred_val : ℚ) - (s._zero_val : ℚ) := by
    have : (s._zero_val : ℚ) + 1 ≤ (s._hundred_val : ℚ) := by exact_mod_cast h1
    linarith
  obtain ⟨Q, hQ⟩ : ∃ Q : ℚ, Q = 100 / ((s._hundred_val : ℚ) - (s._zero_val : ℚ)) := ⟨_, rfl⟩
  have hq : 100 * (n : ℚ) / ((s._hundred_val : ℚ) - (s._zero_val : ℚ)) = (n : ℚ) * Q := by
    rw [hQ]; ring
  rw [hq]
  rw [← hQ] at hσe
  have hQpos : 0 < Q := by rw [hQ]; positivity
  have hQlo : (1 : ℚ) / 1024 ≤ Q := by
    rw [hQ, div_le_div_iff₀ (by norm_num) hdpos]; linarith
  have hQhi : Q ≤ 100 := by
    rw [hQ, div_le_iff₀ hdpos]; nlinarith
  rw [abs_le] at hσe
  have hσlo : (1 : ℚ) / 2048 ≤ σ := by nlinarith [hσe.1]
  have hσhi : σ ≤ 101 := by nlinarith [hσe.2]
  have hσpos : 0 < σ := by linarith
  simp only [Fmt.mul]
  by_cases hn0 : n = 0
  · refine ⟨0, ?_, ?_⟩
    · simp [hn0, Fmt.round]
    · simp [hn0]
  have hnq0 : (n : ℚ) ≠ 0 := by exact_mod_cast hn0
  have ha1 : (1 : ℚ) ≤ |(n : ℚ)| := by
    rw [← Int.cast_abs]
    have : (1 : ℤ) ≤ |n| := Int.one_le_abs hn0
    exact_mod_cast this
  have ha2 : |(n : ℚ)| ≤ 65535 := by
    rw [← Int.cast_abs]; exact_mod_cast hnabs
  have hxabs : |(n : ℚ) * σ| = |(n : ℚ)| * σ := by rw [abs_mul, abs_of_pos hσpos]
  have h12 : (1 : ℚ) ≤ 2 := by norm_num
  obtain ⟨p, hp, hpe⟩ := round_normal binary32 ((n : ℚ) * σ) (mul_ne_zero hnq0 hσpos.ne')
    (by
      rw [hxabs]
      calc (2 : ℚ) ^ binary32.emin ≤ (2 : ℚ) ^ (-11 : ℤ) :=
            zpow_le_zpow_right₀ h12 (by simp [Fmt.emin, binary32])
        _ = 1 / 2048 := by norm_num
        _ ≤ σ := hσlo
        _ ≤ |(n : ℚ)| * σ := by nlinarith)
    (by
      rw [hxabs]
      calc |(n : ℚ)| * σ ≤ 65535 * 101 := by nlinarith
        _ < (2 : ℚ) ^ (23 : ℤ) := by norm_num
        _ ≤ (2 : ℚ) ^ binary32.emax := zpow_le_zpow_right₀ h12 (by simp [binary32]))
  have hu24 : (2 : ℚ) ^ (-((binary32.prec : ℕ) : ℤ)) = 1 / 16777216 := by
    simp only [binary32]; norm_num
  rw [hu24, hxabs] at hpe
  refine ⟨p, hp, ?_⟩
  have hsplit : p - (n : ℚ) * Q = (p - (n : ℚ) * σ) + (n : ℚ) * (σ - Q) := by ring
  have hQabs : |(n : ℚ) * Q| = |(n : ℚ)| * Q := by rw [abs_mul, abs_of_pos hQpos]
  have hσQ : |σ - Q| ≤ Q / 16000000 := abs_le.mpr hσe
  have hσle : σ ≤ Q + Q / 16000000 := by linarith [hσe.2]
  have hanonneg : 0 ≤ |(n : ℚ)| := abs_nonneg _
  have t1 : |(n : ℚ)| * σ ≤ |(n : ℚ)| * (Q + Q / 16000000) :=
    mul_le_mul_of_nonneg_left hσle hanonneg
  have t2 : |(n : ℚ) * (σ - Q)| ≤ |(n : ℚ)| * (Q / 16000000) := by
    rw [abs_mul]; exact mul_le_mul_of_nonneg_left hσQ hanonneg
  rw [hsplit, hQabs]
  calc |p - (n : ℚ) * σ + (n : ℚ) * (σ - Q)|
      ≤ |p - (n : ℚ) * σ| + |(n : ℚ) * (σ - Q)| := abs_add _ _
    _ ≤ |(n : ℚ)| * σ * (1 / 16777216) + |(n : ℚ)| * (Q / 16000000) := by linarith
    _ ≤ |(n : ℚ)| * Q / 8000000 := by
        have hB : 0 ≤ |(n : ℚ)| * Q := by positivity
        have t3 : |(n : ℚ)| * σ ≤ |(n : ℚ)| * Q + |(n : ℚ)| * Q / 16000000 := by
          calc |(n : ℚ)| * σ ≤ |(n : ℚ)| * (Q + Q / 16000000) := t1
            _ = |(n : ℚ)| * Q + |(n : ℚ)| * Q / 16000000 := by ring
        have t4 : |(n : ℚ)| * (Q / 16000000) = |(n : ℚ)| * Q / 16000000 := by ring
        rw [t4]
        linarith

/-- The result of `moisture_of` in terms of a finite scaled reading `p`. -/
theorem moisture_of_fin (s : RAK12035) (undef : FP → ℕ) (c : ℕ) (p : ℚ)
    (hp : binary32.mul (binary32.ofInt ((c : ℤ) - (s._zero_val : ℤ))) s.steps = FP.fin p) :
    s.moisture_of undef c =
      if (if -1 < p ∧ p < 2 ^ 31 then (⌊p⌋).toNat % 256 else undef (FP.fin p) % 256) > 100
      then 100
      else (if -1 < p ∧ p < 2 ^ 31 then (⌊p⌋).toNat % 256 else undef (FP.fin p) % 256) := by
  unfold RAK12035.moisture_of
  rw [hp]
  simp only [f32_to_u8]

/-- Below the dry endpoint, as long as the scaled reading stays above `-1`
(where the conversion is defined), the result is 0. -/
theorem moisture_of_just_below (s : RAK12035) (undef : FP → ℕ) (c : ℕ)
    (h1 : s._zero_val < s._hundred_val) (h2 : s._hundred_val ≤ 65535) (hc : c < s._zero_val)
    (hb : 100 * (s._zero_val - c) < s._hundred_val - s._zero_val) :
    s.moisture_of undef c = 0 := by
  obtain ⟨p, hp, he⟩ := scaled_spec s c h1 h2 (by omega)
  rw [moisture_of_fin s undef c p hp]
  obtain ⟨d, hd⟩ : ∃ d : ℕ, s._hundred_val = s._zero_val + d := ⟨s._hundred_val - s._zero_val, by omega⟩
  obtain ⟨m, hm⟩ : ∃ m : ℕ, s._zero_val = c + m := ⟨s._zero_val - c, by omega⟩
  have hd1 : 1 ≤ d := by omega
  have hd2 : d ≤ 65535 := by omega
  have hm1 : 1 ≤ m := by omega
  have hb2 : 100 * m + 1 ≤ d := by
    have e1 : s._zero_val - c = m := by omega
    have e2 : s._hundred_val - s._zero_val = d := by omega
    rw [e1, e2] at hb; omega
  have hnq : (c : ℚ) - (s._zero_val : ℚ) = -(m : ℚ) := by rw [hm]; push_cast; ring
  have hdq : (s._hundred_val : ℚ) - (s._zero_val : ℚ) = (d : ℚ) := by rw [hd]; push_cast; ring
  rw [hnq, hdq] at he
  have hdpos : (0 : ℚ) < (d : ℚ) := by exact_mod_cast hd1
  have hdle : (d : ℚ) ≤ 65535 := by exact_mod_cast hd2
  have hmq : (1 : ℚ) ≤ (m : ℚ) := by exact_mod_cast hm1
  have hbq : 100 * (m : ℚ) + 1 ≤ (d : ℚ) := by exact_mod_cast hb2
  obtain ⟨q, hq⟩ : ∃ q : ℚ, q = 100 * (m : ℚ) / (d : ℚ) := ⟨_, rfl⟩
  have hqe : 100 * -(m : ℚ) / (d : ℚ) = -q := by rw [hq]; ring
  rw [hqe] at he
  have hqpos : 0 < q := by rw [hq]; positivity
  have hqhi : q ≤ 1 - 1 / 65535 := by
    rw [hq, div_le_iff₀ hdpos]
    have : (1 : ℚ) / 65535 * (d : ℚ) ≤ 1 := by linarith
    linarith
  rw [abs_neg, abs_of_pos hqpos, abs_le] at he
  have hplo : -1 < p := by linarith [he.1]
  have hphi : p < 0 := by linarith [he.2]
  have hin : -1 < p ∧ p < 2 ^ 31 := ⟨hplo, by norm_num; linarith⟩
  rw [if_pos hin]
  have hf : ⌊p⌋ = -1 := by
    rw [Int.floor_eq_iff]
    push_cast
    constructor <;> linarith
  rw [hf]
  decide

/-- Above the wet endpoint, as long as the scaled reading stays within a byte,
the result is 100. -/
theorem moisture_of_above (s : RAK12035) (undef : FP → ℕ) (c : ℕ)
    (h1 : s._zero_val < s._hundred_val)
    (h2 : s._hundred_val ≤ 65535) (hc : s._hundred_val < c) (hc2 : c ≤ 65535)
    (hb : 100 * (c - s._zero_val) ≤ 255 * (s._hundred_val - s._zero_val)) :
    s.moisture_of undef c = 100 := by
  obtain ⟨p, hp, he⟩ := scaled_spec s c h1 h2 hc2
  rw [moisture_of_fin s undef c p hp]
  obtain ⟨d, hd⟩ : ∃ d : ℕ, s._hundred_val = s._zero_val + d := ⟨s._hundred_val - s._zero_val, by omega⟩
  obtain ⟨n, hn⟩ : ∃ n : ℕ, c = s._zero_val + n := ⟨c - s._zero_val, by omega⟩
  have hd1 : 1 ≤ d := by omega
  have hd2 : d ≤ 65535 := by omega
  have hnd : d + 1 ≤ n := by omega
  have hb2 : 100 * n ≤ 255 * d := by
    have e1 : c - s._zero_val = n := by omega
    have e2 : s._hundred_val - s._zero_val = d := by omega
    rw [e1, e2] at hb; exact hb
  have hnq : (c : ℚ) - (s._zero_val : ℚ) = (n : ℚ) := by rw [hn]; push_cast; ring
  have hdq : (s._hundred_val : ℚ) - (s._zero_val : ℚ) = (d : ℚ) := by rw [hd]; push_cast; ring
  rw [hnq, hdq] at he
  have hdpos : (0 : ℚ) < (d : ℚ) := by exact_mod_cast hd1
  have hdle : (d : ℚ) ≤ 65535 := by exact_mod_cast hd2
  have hndq : (d : ℚ) + 1 ≤ (n : ℚ) := by exact_mod_cast hnd
  have hbq : 100 * (n : ℚ) ≤ 255 * (d : ℚ) := by exact_mod_cast hb2
  obtain ⟨q, hq⟩ : ∃ q : ℚ, q = 100 * (n : ℚ) / (d : ℚ) := ⟨_, rfl⟩
  rw [← hq] at he
  have hqlo : 100 + 100 / 65535 ≤ q := by
    rw [hq, le_div_iff₀ hdpos]
    have : 100 / 65535 * (d : ℚ) ≤ 100 := by linarith
    linarith
  have hqhi : q ≤ 255 := by
    rw [hq, div_le_iff₀ hdpos]; linarith
  have hqpos : 0 < q := by linarith
  rw [abs_of_pos hqpos, abs_le] at he
  have hplo : (100 : ℚ) ≤ p := by linarith [he.1]
  have hphi : p < 256 := by linarith [he.2]
  have hf1 : (100 : ℤ) ≤ ⌊p⌋ := Int.le_floor.mpr (by exact_mod_cast hplo)
  have hf2 : ⌊p⌋ < (256 : ℤ) := Int.floor_lt.mpr (by exact_mod_cast hphi)
  have hin : -1 < p ∧ p < 2 ^ 31 := ⟨by linarith, by norm_num; linarith⟩
  rw [if_pos hin]
  split_ifs <;> omega

/-- Between the endpoints the result is the exact truncated quotient, or one
less when that quotient is a whole number. -/
theorem moisture_of_between (s : RAK12035) (undef : FP → ℕ) (c : ℕ)
    (h1 : s._zero_val < s._hundred_val)
    (h2 : s._hundred_val ≤ 65535) (hlo : s._zero_val ≤ c) (hhi : c ≤ s._hundred_val) :
    s.moisture_of undef c = 100 * (c - s._zero_val) / (s._hundred_val - s._zero_val) ∨
      (100 * (c - s._zero_val) % (s._hundred_val - s._zero_val) = 0 ∧
        s.moisture_of undef c + 1 =
          100 * (c - s._zero_val) / (s._hundred_val - s._zero_val)) := by
  obtain ⟨p, hp, he⟩ := scaled_spec s c h1 h2 (by omega)
  rw [moisture_of_fin s undef c p hp]
  obtain ⟨d, hd⟩ : ∃ d : ℕ, s._hundred_val = s._zero_val + d := ⟨s._hundred_val - s._zero_val, by omega⟩
  obtain ⟨n, hn⟩ : ∃ n : ℕ, c = s._zero_val + n := ⟨c - s._zero_val, by omega⟩
  have hd1 : 1 ≤ d := by omega
  have hd2 : d ≤ 65535 := by omega
  have hnd : n ≤ d := by omega
  have e1 : c - s._zero_val = n := by omega
  have e2 : s._hundred_val - s._zero_val = d := by omega
  rw [e1, e2]
  have hnq : (c : ℚ) - (s._zero_val : ℚ) = (n : ℚ) := by rw [hn]; push_cast; ring
  have hdq : (s._hundred_val : ℚ) - (s._zero_val : ℚ) = (d : ℚ) := by rw [hd]; push_cast; ring
  rw [hnq, hdq] at he
  have hdpos : (0 : ℚ) < (d : ℚ) := by exact_mod_cast hd1
  have hdle : (d : ℚ) ≤ 65535 := by exact_mod_cast hd2
  obtain ⟨k, hk⟩ : ∃ k : ℕ, k = 100 * n / d := ⟨_, rfl⟩
  obtain ⟨r, hr⟩ : ∃ r : ℕ, r = 100 * n % d := ⟨_, rfl⟩
  have hdm : d * k + r = 100 * n := by rw [hk, hr]; exact Nat.div_add_mod _ _
  have hrd : r < d := by rw [hr]; exact Nat.mod_lt _ (by omega)
  have hk100 : k ≤ 100 := by
    rw [hk]; apply Nat.div_le_of_le_mul; nlinarith
  rw [← hk, ← hr]
  have hdmq : (d : ℚ) * (k : ℚ) + (r : ℚ) = 100 * (n : ℚ) := by exact_mod_cast hdm
  obtain ⟨q, hq⟩ : ∃ q : ℚ, q = 100 * (n : ℚ) / (d : ℚ) := ⟨_, rfl⟩
  rw [← hq] at he
  have hqk : q = (k : ℚ) + (r : ℚ) / (d : ℚ) := by
    rw [hq, ← hdmq]; field_simp; ring
  have hr0 : (0 : ℚ) ≤ (r : ℚ) / (d : ℚ) := by positivity
  have hk0 : (0 : ℚ) ≤ (k : ℚ) := by positivity
  have hq0 : 0 ≤ q := by rw [hqk]; linarith
  have hrlt : (r : ℚ) / (d : ℚ) ≤ 1 - 1 / 65535 := by
    rw [div_le_iff₀ hdpos]
    have : (r : ℚ) + 1 ≤ (d : ℚ) := by exact_mod_cast hrd
    linarith
  have hkq : (k : ℚ) ≤ 100 := by exact_mod_cast hk100
  have hq100 : q ≤ 101 := by rw [hqk]; linarith
  rw [abs_of_nonneg hq0, abs_le] at he
  have hin : -1 < p ∧ p < 2 ^ 31 :=
    ⟨by linarith [he.1], by norm_num; linarith [he.2]⟩
  rw [if_pos hin]
  by_cases hr0' : r = 0
  · -- whole quotient
    have hqk' : q = (k : ℚ) := by rw [hqk, hr0']; simp
    by_cases hpk : (k : ℚ) ≤ p
    · have hf : ⌊p⌋ = (k : ℤ) := by
        rw [Int.floor_eq_iff]
        push_cast
        constructor
        · exact hpk
        · linarith [he.2]
      left
      rw [hf]
      norm_num
      split_ifs <;> omega
    · push_neg at hpk
      have hk1 : 1 ≤ k := by
        by_contra hcon
        have : k = 0 := by omega
        rw [this] at hpk
        have : 0 ≤ p := by linarith [he.1]
        simp at hpk
        linarith
      have hf : ⌊p⌋ = (k : ℤ) - 1 := by
        rw [Int.floor_eq_iff]
        push_cast
        constructor
        · linarith [he.1]
        · linarith
      right
      refine ⟨hr0', ?_⟩
      rw [hf]
      norm_num
      split_ifs <;> omega
  · -- fractional quotient
    have hr1 : (1 : ℚ) / 65535 ≤ (r : ℚ) / (d : ℚ) := by
      rw [div_le_div_iff₀ (by norm_num) hdpos]
      have : (1 : ℚ) ≤ (r : ℚ) := by
        have : 1 ≤ r := by omega
        exact_mod_cast this
      linarith
    have hf : ⌊p⌋ = (k : ℤ) := by
      rw [Int.floor_eq_iff]
      push_cast
      constructor
      · linarith [he.1]
      · linarith [he.2]
    left
    rw [hf]
    norm_num
    split_ifs <;> omega

/-- The value `moisture_of` returns when the scaled reading `p` lies in `[0, 256)`. -/
theorem moisture_of_in_byte (s : RAK12035) (undef : FP → ℕ) (c : ℕ) (p : ℚ)
    (hp : binary32.mul (binary32.ofInt ((c : ℤ) - (s._zero_val : ℤ))) s.steps = FP.fin p)
    (h0 : -1 < p) (h1 : p < 256) : s.moisture_of undef c = min (⌊p⌋).toNat 100 := by
  rw [moisture_of_fin s undef c p hp]
  have hf1 : (-1 : ℤ) ≤ ⌊p⌋ := Int.le_floor.mpr (by push_cast; linarith)
  have hf2 : ⌊p⌋ < (256 : ℤ) := Int.floor_lt.mpr (by exact_mod_cast h1)
  have hin : -1 < p ∧ p < 2 ^ 31 := ⟨h0, by norm_num; linarith⟩
  rw [if_pos hin]
  split_ifs <;> omega

/-- While the scaled readings stay within the range where the conversion is
fixed (the smaller above `-1`, the larger within a byte), the result does not
decrease when the capacitance grows. -/
theorem moisture_of_mono_in_byte_range (s : RAK12035) (undef : FP → ℕ) (c1 c2 : ℕ)
    (h1 : s._zero_val < s._hundred_val) (h2 : s._hundred_val ≤ 65535) (hc : c1 ≤ c2)
    (hc2 : c2 ≤ 65535)
    (ha : 100 * (s._zero_val - c1) < s._hundred_val - s._zero_val)
    (hb : 100 * (c2 - s._zero_val) ≤ 255 * (s._hundred_val - s._zero_val)) :
    s.moisture_of undef c1 ≤ s.moisture_of undef c2 := by
  by_cases hlow : c1 < s._zero_val
  · rw [moisture_of_just_below s undef c1 h1 h2 hlow ha]; exact Nat.zero_le _
  push_neg at hlow
  obtain ⟨p1, hp1, he1⟩ := scaled_spec s c1 h1 h2 (by omega)
  obtain ⟨p2, hp2, he2⟩ := scaled_spec s c2 h1 h2 hc2
  obtain ⟨d, hd⟩ : ∃ d : ℕ, s._hundred_val = s._zero_val + d := ⟨s._hundred_val - s._zero_val, by omega⟩
  obtain ⟨n1, hn1⟩ : ∃ n : ℕ, c1 = s._zero_val + n := ⟨c1 - s._zero_val, by omega⟩
  obtain ⟨n2, hn2⟩ : ∃ n : ℕ, c2 = s._zero_val + n := ⟨c2 - s._zero_val, by omega⟩
  have hd1 : 1 ≤ d := by omega
  have hd2 : d ≤ 65535 := by omega
  have hn12 : n1 ≤ n2 := by omega
  have hb2 : 100 * n2 ≤ 255 * d := by
    have e1 : c2 - s._zero_val = n2 := by omega
    have e2 : s._hundred_val - s._zero_val = d := by omega
    rw [e1, e2] at hb; exact hb
  have hq1 : (c1 : ℚ) - (s._zero_val : ℚ) = (n1 : ℚ) := by rw [hn1]; push_cast; ring
  have hq2 : (c2 : ℚ) - (s._zero_val : ℚ) = (n2 : ℚ) := by rw [hn2]; push_cast; ring
  have hdq : (s._hundred_val : ℚ) - (s._zero_val : ℚ) = (d : ℚ) := by rw [hd]; push_cast; ring
  rw [hq1, hdq] at he1
  rw [hq2, hdq] at he2
  have hdpos : (0 : ℚ) < (d : ℚ) := by exact_mod_cast hd1
  have hdle : (d : ℚ) ≤ 65535 := by exact_mod_cast hd2
  have hbq : 100 * (n2 : ℚ) ≤ 255 * (d : ℚ) := by exact_mod_cast hb2
  obtain ⟨q1, hq1d⟩ : ∃ q : ℚ, q = 100 * (n1 : ℚ) / (d : ℚ) := ⟨_, rfl⟩
  obtain ⟨q2, hq2d⟩ : ∃ q : ℚ, q = 100 * (n2 : ℚ) / (d : ℚ) := ⟨_, rfl⟩
  rw [← hq1d] at he1
  rw [← hq2d] at he2
  have hq10 : 0 ≤ q1 := by rw [hq1d]; positivity
  have hq20 : 0 ≤ q2 := by rw [hq2d]; positivity
  have hq2hi : q2 ≤ 255 := by rw [hq2d, div_le_iff₀ hdpos]; linarith
  rw [abs_of_nonneg hq10, abs_le] at he1
  rw [abs_of_nonneg hq20, abs_le] at he2
  have hp10 : 0 ≤ p1 := by linarith [he1.1]
  have hp20 : 0 ≤ p2 := by linarith [he2.1]
  have hp2hi : p2 < 256 := by linarith [he2.2]
  have hp12 : p1 ≤ p2 := by
    rcases Nat.eq_or_lt_of_le hn12 with heq | hlt
    · have hcc : c1 = c2 := by omega
      rw [hcc, hp2] at hp1
      have : p2 = p1 := by
        have := hp1
        injection this
      linarith
    · have hstep : q1 + 100 / 65535 ≤ q2 := by
        have hn : (n1 : ℚ) + 1 ≤ (n2 : ℚ) := by exact_mod_cast hlt
        have hgap : 100 / (d : ℚ) ≤ q2 - q1 := by
          rw [hq1d, hq2d, ← sub_div, div_le_div_iff₀ hdpos hdpos]
          nlinarith
        have hmin : (100 : ℚ) / 65535 ≤ 100 / (d : ℚ) := by
          rw [div_le_div_iff₀ (by norm_num) hdpos]; linarith
        linarith
      have hq1hi : q1 ≤ 255 := by linarith
      linarith [he1.2, he2.1]
  have hp1hi : p1 < 256 := by linarith
  rw [moisture_of_in_byte s undef c1 p1 hp1 (by linarith) hp1hi,
    moisture_of_in_byte s undef c2 p2 hp2 (by linarith) hp2hi]
  have hfl : ⌊p1⌋ ≤ ⌊p2⌋ := Int.floor_le_floor hp12
  have hf1 : (0 : ℤ) ≤ ⌊p1⌋ := Int.le_floor.mpr (by exact_mod_cast hp10)
  omega

/-! ## The percentage mapping (C1 - C4) -/

/-- A capacitance is a `uint16_t`. -/
theorem capacitance_lt (s : RAK12035) (hw : Hw) : (s.get_sensor_capacitance hw).2.1 < 65536 := by
  unfold RAK12035.get_sensor_capacitance
  exact Nat.mod_lt _ (by norm_num)

/-- After a successful capacitance read `get_sensor_moisture` returns the mapped
value. -/
theorem get_sensor_moisture_of_read (s : RAK12035) (undef : FP → ℕ) (m0 c : ℕ) (hw hw1 : Hw)
    (hr : s.get_sensor_capacitance hw = (true, c, hw1)) :
    s.get_sensor_moisture undef m0 hw = (true, s.moisture_of undef c, hw1) := by
  unfold RAK12035.get_sensor_moisture
  rw [hr]
  rfl

/-- C1 (amended): with `dry < wet` and a capacitance `c` that is read
successfully, `get_sensor_moisture` reports success, on every target; the value
is 0 when `c < dry` and `100 * (dry - c) < wet - dry` (the scaled reading is
above `-1`, where the conversion is defined), it is 100 when `wet < c` and
`100 * (c - dry) ≤ 255 * (wet - dry)` (the scaled reading still fits the byte
it is narrowed to), and it is 99 or 100 when `c = wet`. -/
theorem get_sensor_moisture_endpoints (s : RAK12035) (undef : FP → ℕ) (m0 c : ℕ) (hw hw1 : Hw)
    (h1 : s._zero_val < s._hundred_val) (h2 : s._hundred_val ≤ 65535)
    (hr : s.get_sensor_capacitance hw = (true, c, hw1)) :
    (s.get_sensor_moisture undef m0 hw).1 = true ∧
      (c < s._zero_val → 100 * (s._zero_val - c) < s._hundred_val - s._zero_val →
        (s.get_sensor_moisture undef m0 hw).2.1 = 0) ∧
      (s._hundred_val < c →
        100 * (c - s._zero_val) ≤ 255 * (s._hundred_val - s._zero_val) →
        (s.get_sensor_moisture undef m0 hw).2.1 = 100) ∧
      (c = s._hundred_val →
        (s.get_sensor_moisture undef m0 hw).2.1 = 99 ∨
          (s.get_sensor_moisture undef m0 hw).2.1 = 100) := by
  have hc : c < 65536 := by
    have := capacitance_lt s hw
    rw [hr] at this
    exact this
  rw [get_sensor_moisture_of_read s undef m0 c hw hw1 hr]
  refine ⟨rfl, ?_, ?_, ?_⟩
  · intro hlt hb
    exact moisture_of_just_below s undef c h1 h2 hlt hb
  · intro hgt hb
    exact moisture_of_above s undef c h1 h2 hgt (by omega) hb
  · intro he
    have hb := moisture_of_between s undef c h1 h2 (by omega) (by omega)
    have hd : s._hundred_val - s._zero_val ≠ 0 := by omega
    have hq : 100 * (c - s._zero_val) / (s._hundred_val - s._zero_val) = 100 := by
      rw [he]
      exact Nat.mul_div_cancel _ (by omega)
    rw [hq] at hb
    rcases hb with hb | ⟨_, hb⟩
    · right; exact hb
    · left
      show s.moisture_of undef c = 99
      omega

/-- Witness of C1: capacitance 600 with calibration (200, 500) gives 100. -/
theorem get_sensor_moisture_endpoints_witness :
    ((calibrated 200 500).get_sensor_moisture wrap_i32 0 (hw_of [reply16 600])).2.1 = 100 :=
  (get_sensor_moisture_endpoints (calibrated 200 500) wrap_i32 0 600 (hw_of [reply16 600])
    ⟨21, [], [WireOp.transmit 32 [1], WireOp.request 32 2], []⟩
    (by decide) (by decide) (by decide)).2.2.1 (by decide) (by decide)

/-- Counterexample to C1 as stated: with calibration (200, 297) the capacitance
297, which is at the wet endpoint, is read successfully and gives 99.  (The
scaled reading lies in `0..255`, so the parameter of the conversion plays no
part.) -/
theorem get_sensor_moisture_wet_endpoint_99 :
    ((calibrated 200 297).get_sensor_moisture wrap_i32 0 (hw_of [reply16 297])).1 = true ∧
      ((calibrated 200 297).get_sensor_moisture wrap_i32 0 (hw_of [reply16 297])).2.1 = 99 := by
  decide!

/-- Further below the dry endpoint the result is not fixed by the source: with
calibration (200, 500) and capacitance 100 the scaled reading is about `-33.3`;
a conversion that saturates at 0 yields 0, the signed one of `wrap_i32` yields
the byte 223, which the clamp turns into 100. -/
theorem get_sensor_moisture_below_dry_depends_on_target :
    ((calibrated 200 500).get_sensor_moisture (fun _ => 0) 0 (hw_of [reply16 100])).2.1 = 0 ∧
      ((calibrated 200 500).get_sensor_moisture wrap_i32 0 (hw_of [reply16 100])).2.1 = 100 := by
  decide!

/-- C2 (amended): with `dry < wet` and a successfully read capacitance `c` with
`dry ≤ c ≤ wet`, `get_sensor_moisture` yields `(c - dry) * 100 / (wet - dry)`
truncated, except that it may yield one less when that quotient is a whole
number. -/
theorem get_sensor_moisture_truncates (s : RAK12035) (undef : FP → ℕ) (m0 c : ℕ) (hw hw1 : Hw)
    (h1 : s._zero_val < s._hundred_val) (h2 : s._hundred_val ≤ 65535)
    (hr : s.get_sensor_capacitance hw = (true, c, hw1))
    (hlo : s._zero_val ≤ c) (hhi : c ≤ s._hundred_val) :
    (s.get_sensor_moisture undef m0 hw).1 = true ∧
      ((s.get_sensor_moisture undef m0 hw).2.1 =
          100 * (c - s._zero_val) / (s._hundred_val - s._zero_val) ∨
        (100 * (c - s._zero_val) % (s._hundred_val - s._zero_val) = 0 ∧
          (s.get_sensor_moisture undef m0 hw).2.1 + 1 =
            100 * (c - s._zero_val) / (s._hundred_val - s._zero_val))) := by
  rw [get_sensor_moisture_of_read s undef m0 c hw hw1 hr]
  exact ⟨rfl, moisture_of_between s undef c h1 h2 hlo hhi⟩

/-- Witness of C2: capacitance 300 with calibration (200, 500) gives 33. -/
theorem get_sensor_moisture_truncates_witness :
    ((calibrated 200 500).get_sensor_moisture wrap_i32 0 (hw_of [reply16 300])).2.1 = 33 :=
  (get_sensor_moisture_truncates (calibrated 200 500) wrap_i32 0 300 (hw_of [reply16 300])
    ⟨21, [], [WireOp.transmit 32 [1], WireOp.request 32 2], []⟩
    (by decide) (by decide) (by decide) (by decide) (by decide)).2.elim id
    (fun h => absurd h.1 (by decide))

/-- Counterexample to C2 as stated: with calibration (200, 315) the capacitance
269 gives 59, while `(269 - 200) * 100 / (315 - 200)` is exactly 60. -/
theorem get_sensor_moisture_whole_quotient_59 :
    ((calibrated 200 315).get_sensor_moisture wrap_i32 0 (hw_of [reply16 269])).2.1 = 59 ∧
      (269 - 200) * 100 / (315 - 200) = 60 ∧ (269 - 200) * 100 % (315 - 200) = 0 := by
  decide!

/-- C3 at its failing input: with calibration (200, 500) the capacitance 600
gives 100 and the larger capacitance 968 gives 0, whatever the target does
where the conversion is left open, because the scaled reading 256 is narrowed
to a byte before it is clamped. -/
theorem get_sensor_moisture_wraps_past_255 (undef : FP → ℕ) :
    ((calibrated 200 500).get_sensor_moisture undef 0 (hw_of [reply16 600])).2.1 = 100 ∧
      ((calibrated 200 500).get_sensor_moisture undef 0 (hw_of [reply16 968])).2.1 = 0 := by
  have r1 : (calibrated 200 500).get_sensor_capacitance (hw_of [reply16 600]) =
      (true, 600, ⟨21, [], [WireOp.transmit 32 [1], WireOp.request 32 2], []⟩) := by decide
  have r2 : (calibrated 200 500).get_sensor_capacitance (hw_of [reply16 968]) =
      (true, 968, ⟨21, [], [WireOp.transmit 32 [1], WireOp.request 32 2], []⟩) := by decide
  have p1 : binary32.mul (binary32.ofInt (((600 : ℕ) : ℤ) - (((calibrated 200 500)._zero_val : ℕ) : ℤ)))
      (calibrated 200 500).steps = FP.fin (4369067 / 32768) := by decide!
  have p2 : binary32.mul (binary32.ofInt (((968 : ℕ) : ℤ) - (((calibrated 200 500)._zero_val : ℕ) : ℤ)))
      (calibrated 200 500).steps = FP.fin 256 := by decide!
  have f1 : ⌊(4369067 / 32768 : ℚ)⌋ = 133 := by decide!
  have f2 : ⌊(256 : ℚ)⌋ = 256 := by decide!
  rw [get_sensor_moisture_of_read _ undef 0 600 _ _ r1,
    get_sensor_moisture_of_read _ undef 0 968 _ _ r2]
  constructor
  · show (calibrated 200 500).moisture_of undef 600 = 100
    have hin : (-1 : ℚ) < 4369067 / 32768 ∧ (4369067 / 32768 : ℚ) < 2 ^ 31 := by norm_num
    rw [moisture_of_fin _ undef 600 _ p1, if_pos hin, f1]
    decide
  · show (calibrated 200 500).moisture_of undef 968 = 0
    have hin : (-1 : ℚ) < 256 ∧ (256 : ℚ) < 2 ^ 31 := by norm_num
    rw [moisture_of_fin _ undef 968 _ p2, if_pos hin, f2]
    decide

/-- C6: for an address argument outside 1..127, `set_sensor_addr` returns
failure and leaves the session and the hardware (bus script, `Wire` log, pin
log, clock) as they were: no bus transaction, no reset, the stored address
unchanged. -/
theorem set_sensor_addr_out_of_range (s : RAK12035) (addr : ℕ) (hw : Hw)
    (h : addr < 1 ∨ 127 < addr) :
    s.set_sensor_addr addr hw = (false, s, hw) ∧
      (s.set_sensor_addr addr hw).2.1.get_sensor_addr = s.get_sensor_addr := by
  have : s.set_sensor_addr addr hw = (false, s, hw) := by
    unfold RAK12035.set_sensor_addr
    rw [if_pos h]
  rw [this]
  exact ⟨rfl, rfl⟩

/-- Witness of C6: the address 200. -/
theorem set_sensor_addr_out_of_range_witness :
    (200 < 1 ∨ 127 < 200) ∧
      (({} : RAK12035).set_sensor_addr 200 (hw_of [reply16 1]) =
          (false, {}, hw_of [reply16 1]) ∧
        (({} : RAK12035).set_sensor_addr 200 (hw_of [reply16 1])).2.1.get_sensor_addr =
          ({} : RAK12035).get_sensor_addr) :=
  ⟨by decide, set_sensor_addr_out_of_range {} 200 (hw_of [reply16 1]) (by decide)⟩

/-- Both setters keep a stored address that lies in 1..127 inside that range,
whatever the argument and the bus do. -/
theorem setters_keep_address_in_range (s : RAK12035) (addr : ℕ) (hw : Hw)
    (h : 1 ≤ s._sensorAddress ∧ s._sensorAddress ≤ 127) :
    (1 ≤ (s.set_i2c_addr addr).2._sensorAddress ∧ (s.set_i2c_addr addr).2._sensorAddress ≤ 127) ∧
      (1 ≤ (s.set_sensor_addr addr hw).2.1._sensorAddress ∧
        (s.set_sensor_addr addr hw).2.1._sensorAddress ≤ 127) := by
  constructor
  · unfold RAK12035.set_i2c_addr
    split
    · exact h
    · simp only; omega
  · unfold RAK12035.set_sensor_addr
    split
    · exact h
    · rcases s.write_rak12035 3 addr hw with ⟨ok, hw1⟩
      cases ok
      · exact h
      · simp only [if_true]; omega

/-- C7 at its failing input: a session constructed with the address 200 stores
200, outside 1..127, and a rejected `set_i2c_addr` or `set_sensor_addr` leaves
it there. -/
theorem constructor_stores_any_address :
    (RAK12035.RAK12035 200).get_sensor_addr = 200 ∧
      ((RAK12035.RAK12035 200).set_i2c_addr 0).2.get_sensor_addr = 200 ∧
      ((RAK12035.RAK12035 200).set_sensor_addr 128 (hw_of [])).2.1.get_sensor_addr = 200 := by
  decide

/-! ## Calibration and sampling (C8, C9) -/

/-- With readings of at most 32767 each round of `calib_rounds` keeps the
running value between bounds that enclose it and the readings. -/
theorem calib_rounds_in_band (s : RAK12035) (lo hi : ℕ) (hhi : hi ≤ 32767) :
    ∀ (k v : ℕ) (hw : Hw), lo ≤ v → v ≤ hi →
      (∀ r, r ∈ calib_readings s k hw → lo ≤ r ∧ r ≤ hi) →
      lo ≤ (calib_rounds s k v hw).1 ∧ (calib_rounds s k v hw).1 ≤ hi := by
  intro k
  induction k with
  | zero => intro v hw h1 h2 _; exact ⟨h1, h2⟩
  | succ k ih =>
    intro v hw h1 h2 hr
    rw [calib_rounds]
    rw [calib_readings] at hr
    rcases hcap : s.get_sensor_capacitance hw with ⟨ok, r, hw1⟩
    rw [hcap] at hr
    simp only [List.mem_cons, forall_eq_or_imp] at hr
    obtain ⟨⟨hr1, hr2⟩, hrest⟩ := hr
    apply ih
    · omega
    · omega
    · exact hrest

/-- The value `start_calib` returns after a successful wake is the one its 100
rounds compute from the initial reading. -/
theorem start_calib_awake_value (is_dry : Bool) (a : App) (hw : Hw) :
    (start_calib_awake is_dry a hw).1 =
      (calib_rounds a.sensor 100 (a.sensor.get_sensor_capacitance hw).2.1
        (a.sensor.get_sensor_capacitance hw).2.2).1 := by
  unfold start_calib_awake
  generalize calib_rounds a.sensor 100 = F
  rcases a.sensor.get_sensor_capacitance hw with ⟨ok, r0, hw1⟩
  simp only

/-- With all readings at most 32767 the value `start_calib` returns after a
successful wake lies between any two bounds that enclose the readings, hence
between their minimum and maximum. -/
theorem start_calib_awake_in_band (is_dry : Bool) (a : App) (hw : Hw) (lo hi : ℕ)
    (hhi : hi ≤ 32767)
    (hr : ∀ r, r ∈ (a.sensor.get_sensor_capacitance hw).2.1 ::
        calib_readings a.sensor 100 (a.sensor.get_sensor_capacitance hw).2.2 →
      lo ≤ r ∧ r ≤ hi) :
    lo ≤ (start_calib_awake is_dry a hw).1 ∧ (start_calib_awake is_dry a hw).1 ≤ hi := by
  rw [start_calib_awake_value]
  simp only [List.mem_cons, forall_eq_or_imp] at hr
  exact calib_rounds_in_band a.sensor lo hi hhi 100 _ _ hr.1.1 hr.1.2 hr.2

/-- C8 at its failing input: after a successful wake, with the initial reading
and all 100 samples equal to 40000, `start_calib` returns 2550, below every
reading, because `new_value += new_reading` wraps at 65536. -/
theorem start_calib_wraps_uint16 :
    (start_calib 5 true { hw := hw_of (version_reply :: List.replicate 101 (reply16 40000)) }).map
      Prod.fst = some 2550 := by
  decide!

/-- C10 (amended): on a store without the file, whose writes succeed,
`read_calib` yields the record (dry = 75, wet = 250), writes it once, and a
second `read_calib` yields the same record and leaves the store as it is. -/
theorem read_calib_bootstrap (a : App) (he : a.flash.soil = none) (hw : a.flash.writable = true) :
    (read_calib a).calib_values = { zero_val := 75, hundred_val := 250 } ∧
      (read_calib a).flash.soil = some [75, 0, 250, 0] ∧
      (read_calib a).flash.writes = a.flash.writes + 1 ∧
      (read_calib (read_calib a)).calib_values = (read_calib a).calib_values ∧
      (read_calib (read_calib a)).flash = (read_calib a).flash := by
  have h1 : read_calib a =
      { a with calib_values := { zero_val := 75, hundred_val := 250 },
               flash := { a.flash with soil := some [75, 0, 250, 0], writes := a.flash.writes + 1 },
               hw := a.hw.delay 100 } := by
    unfold read_calib
    simp [he, hw, Flash.write_record, calib_values_s.bytes, calib_values_s.read,
      calib_values_s.ofBytes]
  rw [h1]
  refine ⟨rfl, rfl, rfl, ?_, ?_⟩
  · simp [read_calib, calib_values_s.read, calib_values_s.ofBytes]
  · simp [read_calib]

/-- Witness of C10: the initial application state. -/
theorem read_calib_bootstrap_witness :
    ((read_calib { hw := hw_of [] }).calib_values = { zero_val := 75, hundred_val := 250 } ∧
      (read_calib { hw := hw_of [] }).flash.soil = some [75, 0, 250, 0] ∧
      (read_calib { hw := hw_of [] }).flash.writes = 0 + 1 ∧
      (read_calib (read_calib { hw := hw_of [] })).calib_values =
        (read_calib { hw := hw_of [] }).calib_values ∧
      (read_calib (read_calib { hw := hw_of [] })).flash =
        (read_calib { hw := hw_of [] }).flash) :=
  read_calib_bootstrap { hw := hw_of [] } rfl rfl

/-- Counterexample to C10 as stated: the record `read_calib` yields on an empty
store is not (dry = 200, wet = 500). -/
theorem read_calib_default_is_75_250 :
    (read_calib { hw := hw_of [] }).calib_values ≠ { zero_val := 200, hundred_val := 500 } := by
  decide

end SoilSensor
